import Mathlib

/-!
# TauriPets scoring / leaderboard core: a shallow embedding

This file embeds the leaderboard core of `supabase-functions.js`:
the collection fingerprint computed inside `submitScore`, the
reconciliation flow of `submitScore` itself (duplicate-fingerprint
check, player+realm check, delete/update/insert emission), and the
small store-client wrappers `fetchLeaderboard`,
`saveCollectionToSupabase` and `loadCollectionFromSupabase`.

JavaScript numbers on the relevant paths are naturals (species ids,
levels, qualities, counts) or integers (scores); missing object fields
are modelled with `Option`, and the JS `x || d` falsiness idiom
(where `0` also falls through to the default) is modelled explicitly.
-/

namespace TauriPets

/-- A raw pet record as `submitScore` reads it from `playerData.pets`:
each numeric field may be absent, and quality may live either in
`quality` or in `qualityID`. -/
structure Pet where
  speciesID : Option Nat
  level : Option Nat
  quality : Option Nat
  qualityID : Option Nat
deriving DecidableEq

/-- JavaScript `x || d` on an optional numeric field: a missing field is
falsy, and so is `0`, so both fall through to the default `d`. -/
def jsOrNat (x : Option Nat) (d : Nat) : Nat :=
  match x with
  | none => d
  | some n => if n = 0 then d else n

/-- Quality resolution inlined in `submitScore` (line 108):
`typeof p.quality === 'number' ? p.quality : (p.qualityID || 0)`. -/
def petQuality (p : Pet) : Nat :=
  match p.quality with
  | some q => q
  | none => jsOrNat p.qualityID 0

/-- The canonical token built for each pet on line 108:
`${p.speciesID || 0}-${p.level || 1}-${quality}`. -/
def petToken (p : Pet) : String :=
  Nat.repr (jsOrNat p.speciesID 0) ++ "-" ++ Nat.repr (jsOrNat p.level 1) ++ "-" ++
    Nat.repr (petQuality p)

/-- The effective (speciesID, level, quality) triple a pet contributes to
the fingerprint, after the code's defaulting. -/
def effTriple (p : Pet) : Nat × Nat × Nat :=
  (jsOrNat p.speciesID 0, jsOrNat p.level 1, petQuality p)

/-- Lexicographic comparison of char lists by code point.  On the ASCII
token strings this is exactly the order induced by JavaScript's default
`Array.prototype.sort` comparator (UTF-16 code unit order). -/
def charListLe : List Char → List Char → Bool
  | [], _ => true
  | _ :: _, [] => false
  | a :: as, b :: bs => if a = b then charListLe as bs else decide (a < b)

/-- The string order used by `.sort()` on line 109. -/
def strLe (a b : String) : Prop := charListLe a.data b.data = true

instance : DecidableRel strLe :=
  fun a b => inferInstanceAs (Decidable (charListLe a.data b.data = true))

/-- The base64 alphabet used by `btoa`. -/
def base64Chars : List Char :=
  ['A', 'B', 'C', 'D', 'E', 'F', 'G', 'H', 'I', 'J', 'K', 'L', 'M',
   'N', 'O', 'P', 'Q', 'R', 'S', 'T', 'U', 'V', 'W', 'X', 'Y', 'Z',
   'a', 'b', 'c', 'd', 'e', 'f', 'g', 'h', 'i', 'j', 'k', 'l', 'm',
   'n', 'o', 'p', 'q', 'r', 's', 't', 'u', 'v', 'w', 'x', 'y', 'z',
   '0', '1', '2', '3', '4', '5', '6', '7', '8', '9', '+', '/']

def b64Char (n : Nat) : Char := base64Chars.getD n 'A'

/-- Base64 of a byte list (the body of `btoa`), three bytes to four
output characters, with `=` padding on a trailing group of one or two
bytes. -/
def base64Encode : List Nat → List Char
  | [] => []
  | [b1] => [b64Char (b1 / 4), b64Char (b1 % 4 * 16), '=', '=']
  | [b1, b2] => [b64Char (b1 / 4), b64Char (b1 % 4 * 16 + b2 / 16), b64Char (b2 % 16 * 4), '=']
  | b1 :: b2 :: b3 :: rest =>
      b64Char (b1 / 4) :: b64Char (b1 % 4 * 16 + b2 / 16) ::
        b64Char (b2 % 16 * 4 + b3 / 64) :: b64Char (b3 % 64) :: base64Encode rest

/-- `btoa` on a latin-1 string: base64 of the character codes. -/
def btoa (s : String) : String := String.mk (base64Encode (s.data.map Char.toNat))

/-- JavaScript `arr.join(',')`. -/
def joinComma : List String → String
  | [] => ""
  | [s] => s
  | s :: rest => s ++ "," ++ joinComma rest

/-- `s.substring(0, n)` on an ASCII string. -/
def strTake (s : String) (n : Nat) : String := String.mk (s.data.take n)

/-- `.sort()` of the token array (line 109): the sorted-by-`strLe`
rearrangement. -/
def sortTokens (ts : List String) : List String := List.insertionSort strLe ts

/-- The collection fingerprint computed in `submitScore` (lines 106-111):
map each pet to its token, sort, join with commas, `btoa`, and truncate
to the first 64 characters. -/
def collectionFingerprint (pets : List Pet) : String :=
  strTake (btoa (joinComma (sortTokens (pets.map petToken)))) 64

/-- The stats object inside `currentScoreData`. -/
structure ScoreStats where
  uniqueCount : Nat
  level25Count : Nat
  rareCount : Nat
  epicCount : Nat
deriving DecidableEq

/-- `currentScoreData`: total score plus breakdown stats. -/
structure ScoreData where
  total : Int
  stats : ScoreStats
deriving DecidableEq

/-- `playerData`: name, realm and the raw pet list (possibly absent,
`playerData.pets || []`). -/
structure PlayerData where
  playerName : String
  realmName : String
  pets : Option (List Pet)
deriving DecidableEq

/-- A leaderboard row as returned by the two
`select('id, score, player, realm, collection_id')` lookups. -/
structure Entry where
  id : Nat
  score : Int
  player : String
  realm : String
  collection_id : String
deriving DecidableEq

/-- The payload of the `.update({...})` call (lines 170-179): everything
but the player name, which is only used as the row key. -/
structure UpdateRow where
  realm : String
  score : Int
  pets : Nat
  level25 : Nat
  rare : Nat
  epic : Nat
  collection_id : String
  created_at : Nat
deriving DecidableEq

/-- The payload of the `.insert({...})` call (lines 184-195). -/
structure InsertRow where
  player : String
  realm : String
  score : Int
  pets : Nat
  level25 : Nat
  rare : Nat
  epic : Nat
  collection_id : String
  created_at : Nat
deriving DecidableEq

/-- A store call issued by `submitScore`, in issue order: the two
`maybeSingle` reads and the three kinds of writes. -/
inductive StoreAction where
  | readByFingerprint (collectionId : String)
  | readByPlayerRealm (player realm : String)
  | deleteEntry (id : Nat)
  | updateEntry (player realm : String) (row : UpdateRow)
  | insertEntry (row : InsertRow)
deriving DecidableEq

/-- How a `submitScore` invocation ends. -/
inductive Outcome where
  | missingData
  | cancelled
  | duplicateDeclined
  | notImprovement
  | writeFailed (msg : String)
  | submitted
deriving DecidableEq

/-- One `submitScore` invocation's environment: the two global inputs,
the two `confirm` answers, the store's answers to the two lookups, the
error (if any) the final write returns, and the clock. -/
structure SubmitInput where
  currentScoreData : Option ScoreData
  playerData : Option PlayerData
  confirmSubmit : Bool
  confirmReplace : Bool
  byFingerprint : String → Option Entry
  byPlayerRealm : String → String → Option Entry
  writeErr : Option String
  now : Nat

/-- Second half of `submitScore` (lines 153-204): look up the player's
own row, then no-op / update / insert, reporting a write error if the
issued write fails. -/
def submitPhase2 (inp : SubmitInput) (player realm : String) (score : Int)
    (petsCount level25 rare epic : Nat) (collectionId : String)
    (acc : List StoreAction) : List StoreAction × Outcome :=
  let acc2 := acc ++ [StoreAction.readByPlayerRealm player realm]
  match inp.byPlayerRealm player realm with
  | some existing =>
    if existing.score ≥ score then (acc2, Outcome.notImprovement)
    else
      let acc3 := acc2 ++ [StoreAction.updateEntry player realm
        ⟨realm, score, petsCount, level25, rare, epic, collectionId, inp.now⟩]
      match inp.writeErr with
      | some e => (acc3, Outcome.writeFailed e)
      | none => (acc3, Outcome.submitted)
  | none =>
    let acc3 := acc2 ++ [StoreAction.insertEntry
      ⟨player, realm, score, petsCount, level25, rare, epic, collectionId, inp.now⟩]
    match inp.writeErr with
    | some e => (acc3, Outcome.writeFailed e)
    | none => (acc3, Outcome.submitted)

/-- The full `submitScore` flow (lines 89-213), as the list of store
calls it issues plus its outcome: refuse when `currentScoreData` or
`playerData` is missing, compute the fingerprint, ask for confirmation,
run the duplicate-fingerprint check (deleting the old row when the user
confirms the replacement), then the player+realm reconciliation. -/
def submitScore (inp : SubmitInput) : List StoreAction × Outcome :=
  match inp.currentScoreData, inp.playerData with
  | none, _ => ([], Outcome.missingData)
  | some _, none => ([], Outcome.missingData)
  | some csd, some pd =>
    let collectionId := collectionFingerprint (pd.pets.getD [])
    if inp.confirmSubmit = false then ([], Outcome.cancelled)
    else
      let acc : List StoreAction := [StoreAction.readByFingerprint collectionId]
      match inp.byFingerprint collectionId with
      | some dup =>
        if dup.player ≠ pd.playerName then
          if inp.confirmReplace = false then (acc, Outcome.duplicateDeclined)
          else
            submitPhase2 inp pd.playerName pd.realmName csd.total csd.stats.uniqueCount
              csd.stats.level25Count csd.stats.rareCount csd.stats.epicCount collectionId
              (acc ++ [StoreAction.deleteEntry dup.id])
        else
          submitPhase2 inp pd.playerName pd.realmName csd.total csd.stats.uniqueCount
            csd.stats.level25Count csd.stats.rareCount csd.stats.epicCount collectionId acc
      | none =>
        submitPhase2 inp pd.playerName pd.realmName csd.total csd.stats.uniqueCount
          csd.stats.level25Count csd.stats.rareCount csd.stats.epicCount collectionId acc

/-- Store writes among the issued actions. -/
def isWrite : StoreAction → Bool
  | StoreAction.readByFingerprint _ => false
  | StoreAction.readByPlayerRealm _ _ => false
  | StoreAction.deleteEntry _ => true
  | StoreAction.updateEntry _ _ _ => true
  | StoreAction.insertEntry _ => true

def isUpdate : StoreAction → Bool
  | StoreAction.updateEntry _ _ _ => true
  | _ => false

/-- Writes issued by a `submitScore` run. -/
def writesOf (out : List StoreAction × Outcome) : List StoreAction :=
  out.1.filter isWrite

/-- A leaderboard row as `fetchLeaderboard` returns it. -/
structure LBRow where
  player : String
  realm : String
  score : Int
  pets : Nat
  level25 : Nat
  rare : Nat
  epic : Nat
  collection_id : String
  created_at : Nat
deriving DecidableEq

/-- What the remote `select ... order ... limit` call comes back with:
rows (`data`, possibly null), a supabase error object, or a thrown
exception. -/
inductive FetchResp where
  | ok (rows : Option (List LBRow))
  | err (e : String)
  | exn (e : String)
deriving DecidableEq

/-- `fetchLeaderboard` (lines 65-84): `data || []` on success, and `[]`
on both the error branch and the catch branch. -/
def fetchLeaderboard : FetchResp → List LBRow
  | FetchResp.ok rows => rows.getD []
  | FetchResp.err _ => []
  | FetchResp.exn _ => []

/-- How the write issued by `saveCollectionToSupabase` ends: success, a
supabase error object on `result.error`, or a thrown exception. -/
inductive WriteResp where
  | ok
  | err (e : String)
  | exn (e : String)
deriving DecidableEq

/-- Which write `saveCollectionToSupabase` issues. -/
inductive SaveOp where
  | updateCollection (id : Nat)
  | insertCollection
deriving DecidableEq

/-- `saveCollectionToSupabase` (lines 8-42): update when the
player+realm lookup found a row, insert otherwise; the returned flag is
`!result.error`, and any thrown exception yields `false`. -/
def saveCollectionToSupabase (existing : Option Nat) (res : WriteResp) : SaveOp × Bool :=
  let op := match existing with
    | some id => SaveOp.updateCollection id
    | none => SaveOp.insertCollection
  match res with
  | WriteResp.ok => (op, true)
  | WriteResp.err _ => (op, false)
  | WriteResp.exn _ => (op, false)

/-- A stored collection row as `loadCollectionFromSupabase` selects it. -/
structure CollectionRow where
  player : String
  realm : String
  pets : List Pet
  score : Int
deriving DecidableEq

/-- What the `.single()` read comes back with. -/
inductive LoadResp where
  | ok (row : CollectionRow)
  | err (e : String)
  | exn (e : String)
deriving DecidableEq

/-- `loadCollectionFromSupabase` (lines 47-60): `error ? null : data`
inside a try/catch whose catch returns null.  Totality of this function
is the no-throw guarantee: every branch, including the exception branch,
produces a value. -/
def loadCollectionFromSupabase : LoadResp → Option CollectionRow
  | LoadResp.ok row => some row
  | LoadResp.err _ => none
  | LoadResp.exn _ => none

/-! ## Concrete data used by witnesses and counterexamples -/

/-- A pet with all three numeric fields present. -/
def mkPet (s l q : Nat) : Pet := ⟨some s, some l, some q, none⟩

/-- Eight pets whose sorted token join already fills the 48 bytes that
survive the 64-character base64 truncation. -/
def petsBase : List Pet :=
  [mkPet 1 1 0, mkPet 2 1 0, mkPet 3 1 0, mkPet 4 1 0,
   mkPet 5 1 0, mkPet 6 1 0, mkPet 7 1 0, mkPet 8 1 0]

def petsA : List Pet := petsBase ++ [mkPet 9 1 0]

def petsB : List Pet := petsBase ++ [mkPet 9 1 1]

/-- The pet whose explicit zero level separates claim C7's wording from
the code's falsy defaulting. -/
def claimPet : Pet := ⟨some 1, some 0, some 2, none⟩

/-- Submission environment with both globals missing. -/
def noDataInput : SubmitInput :=
  ⟨none, none, true, true, fun _ => none, fun _ _ => none, none, 0⟩

/-- A fresh submission: no fingerprint match, no player+realm row. -/
def freshInput : SubmitInput :=
  ⟨some ⟨1000, ⟨10, 5, 3, 1⟩⟩, some ⟨"Alice", "Realm", some []⟩, true, true,
   fun _ => none, fun _ _ => none, none, 7⟩

/-- An improving resubmission: own row holds 900, candidate is 1000. -/
def updInput : SubmitInput :=
  ⟨some ⟨1000, ⟨10, 5, 3, 1⟩⟩, some ⟨"Alice", "Realm", some []⟩, true, true,
   fun _ => none, fun _ _ => some ⟨2, 900, "Alice", "Realm", "old"⟩, none, 7⟩

/-- A submission hitting both a different-player fingerprint match
(confirmed for replacement) and an own row with a higher score. -/
def c3Input : SubmitInput :=
  ⟨some ⟨900, ⟨10, 5, 3, 1⟩⟩, some ⟨"Alice", "Realm", some []⟩, true, true,
   fun _ => some ⟨1, 500, "Bob", "Realm", "fp"⟩,
   fun _ _ => some ⟨2, 1000, "Alice", "Realm", "old"⟩, none, 7⟩

/-- A non-improving resubmission with no fingerprint conflict. -/
def c3wInput : SubmitInput :=
  ⟨some ⟨900, ⟨10, 5, 3, 1⟩⟩, some ⟨"Alice", "Realm", some []⟩, true, true,
   fun _ => none, fun _ _ => some ⟨2, 1000, "Alice", "Realm", "old"⟩, none, 7⟩

/-- A confirmed fingerprint replacement where the submitter's own row
already has a higher score: the delete is not followed by an insert. -/
def c1Input : SubmitInput :=
  ⟨some ⟨800, ⟨10, 5, 3, 1⟩⟩, some ⟨"Dana", "Realm", some []⟩, true, true,
   fun _ => some ⟨4, 700, "Eve", "Realm", "x"⟩,
   fun _ _ => some ⟨5, 900, "Dana", "Realm", "y"⟩, none, 7⟩

/-- A confirmed fingerprint replacement where the submitter has no own
row, so the delete is followed by the insert. -/
def c1wInput : SubmitInput :=
  ⟨some ⟨800, ⟨10, 5, 3, 1⟩⟩, some ⟨"Dana", "Realm", some []⟩, true, true,
   fun _ => some ⟨4, 700, "Eve", "Realm", "x"⟩, fun _ _ => none, none, 7⟩

/-- A fresh submission whose final write fails. -/
def c8Input : SubmitInput :=
  ⟨some ⟨1000, ⟨10, 5, 3, 1⟩⟩, some ⟨"Alice", "Realm", some []⟩, true, true,
   fun _ => none, fun _ _ => none, some "boom", 7⟩

/-! ## Order facts about the token comparison -/

theorem charListLe_total : ∀ as bs : List Char, charListLe as bs = true ∨ charListLe bs as = true
  | [], _ => Or.inl rfl
  | _ :: _, [] => Or.inr rfl
  | a :: as, b :: bs => by
    by_cases hab : a = b
    · subst hab
      simpa [charListLe] using charListLe_total as bs
    · rcases lt_or_gt_of_ne hab with h | h
      · exact Or.inl (by simp [charListLe, hab, h])
      · exact Or.inr (by simp [charListLe, Ne.symm hab, h])

theorem charListLe_trans : ∀ as bs cs : List Char,
    charListLe as bs = true → charListLe bs cs = true → charListLe as cs = true
  | [], _, _, _, _ => rfl
  | _ :: _, [], _, h1, _ => by simp [charListLe] at h1
  | _ :: _, _ :: _, [], _, h2 => by simp [charListLe] at h2
  | a :: as, b :: bs, c :: cs, h1, h2 => by
    by_cases hab : a = b <;> by_cases hbc : b = c
    · subst hab; subst hbc
      simp only [charListLe, if_pos rfl] at h1 h2 ⊢
      exact charListLe_trans as bs cs h1 h2
    · subst hab
      simp only [charListLe, if_neg hbc, decide_eq_true_eq] at h2
      simp [charListLe, hbc, h2]
    · subst hbc
      simp only [charListLe, if_neg hab, decide_eq_true_eq] at h1
      simp [charListLe, if_neg hab, h1]
    · simp only [charListLe, if_neg hab, decide_eq_true_eq] at h1
      simp only [charListLe, if_neg hbc, decide_eq_true_eq] at h2
      have hac := lt_trans h1 h2
      simp [charListLe, if_neg (ne_of_lt hac), hac]

theorem charListLe_antisymm : ∀ as bs : List Char,
    charListLe as bs = true → charListLe bs as = true → as = bs
  | [], [], _, _ => rfl
  | [], _ :: _, _, h2 => by simp [charListLe] at h2
  | _ :: _, [], h1, _ => by simp [charListLe] at h1
  | a :: as, b :: bs, h1, h2 => by
    by_cases hab : a = b
    · subst hab
      simp only [charListLe, if_pos rfl] at h1 h2
      rw [charListLe_antisymm as bs h1 h2]
    · simp only [charListLe, if_neg hab, decide_eq_true_eq] at h1
      simp only [charListLe, if_neg (Ne.symm hab), decide_eq_true_eq] at h2
      exact absurd h2 (lt_asymm h1)

instance : IsTotal String strLe := ⟨fun a b => charListLe_total a.data b.data⟩

instance : IsTrans String strLe := ⟨fun a b c => charListLe_trans a.data b.data c.data⟩

instance : IsAntisymm String strLe :=
  ⟨fun a b h1 h2 => String.toList_inj.mp (charListLe_antisymm a.data b.data h1 h2)⟩

theorem charListLe_refl : ∀ as : List Char, charListLe as as = true
  | [] => rfl
  | a :: as => by simp [charListLe, charListLe_refl as]

instance : IsRefl String strLe := ⟨fun a => charListLe_refl a.data⟩

/-! ## Spec-side definitions (for the refinement claims)

`claimToken` follows claim C7's words as frozen; `specToken` follows the
amended description.  `specFingerprint` sorts the multiset of tokens via
`Multiset.sort`, an implementation independent of the code's `.sort()`
embedding. -/

/-- The per-pet token exactly as claim C7 words it: `speciesID-level-quality`
with a *missing* level defaulting to 1 and a *missing* quality defaulting
to 0 (a present zero is kept, and `qualityID` plays no role). -/
def claimToken (p : Pet) : String :=
  Nat.repr (p.speciesID.getD 0) ++ "-" ++ Nat.repr (p.level.getD 1) ++ "-" ++
    Nat.repr (p.quality.getD 0)

/-- The fingerprint as claim C7 describes it: claim tokens, sorted
lexicographically, joined with the comma delimiter, base64-encoded and
truncated to at most 64 characters. -/
def claimFingerprint (pets : List Pet) : String :=
  strTake (btoa (joinComma (sortTokens (pets.map claimToken)))) 64

/-- The per-pet token of the amended description: a missing *or zero*
speciesID becomes 0, a missing or zero level becomes 1, and the quality
is the numeric `quality` field when present, else `qualityID` (zero or
missing `qualityID` giving 0). -/
def specToken (p : Pet) : String :=
  let sid : Nat :=
    match p.speciesID with
    | none => 0
    | some s => if s = 0 then 0 else s
  let lvl : Nat :=
    match p.level with
    | none => 1
    | some l => if l = 0 then 1 else l
  let q : Nat :=
    match p.quality with
    | some q => q
    | none =>
      match p.qualityID with
      | none => 0
      | some x => if x = 0 then 0 else x
  Nat.repr sid ++ "-" ++ Nat.repr lvl ++ "-" ++ Nat.repr q

/-- The fingerprint of the amended description: the lexicographically
sorted multiset of amended tokens, comma-joined, base64-encoded,
truncated to at most 64 characters. -/
def specFingerprint (pets : List Pet) : String :=
  strTake (btoa (joinComma (Multiset.sort strLe (pets.map specToken : Multiset String)))) 64

/-! ## Decimal rendering: character set and injectivity

The tokens are built with JavaScript template interpolation of numbers,
embedded as `Nat.repr`.  We need that the rendered digits avoid the two
separators `-` and `,`, and that rendering is injective. -/

def decDigits : List Char := ['0', '1', '2', '3', '4', '5', '6', '7', '8', '9']

theorem digitChar_mem_decDigits : ∀ k, k < 10 → Nat.digitChar k ∈ decDigits := by decide

theorem toDigitsCore_mem : ∀ (fuel n : Nat) (ds : List Char) (c : Char),
    c ∈ Nat.toDigitsCore 10 fuel n ds → c ∈ decDigits ∨ c ∈ ds
  | 0, _, _, _, h => Or.inr h
  | fuel + 1, n, ds, c, h => by
    simp only [Nat.toDigitsCore] at h
    by_cases h0 : n / 10 = 0
    · rw [if_pos h0] at h
      rcases List.mem_cons.mp h with h | h
      · exact Or.inl (h ▸ digitChar_mem_decDigits _ (Nat.mod_lt n (by norm_num)))
      · exact Or.inr h
    · rw [if_neg h0] at h
      rcases toDigitsCore_mem fuel (n / 10) _ c h with h | h
      · exact Or.inl h
      · rcases List.mem_cons.mp h with h | h
        · exact Or.inl (h ▸ digitChar_mem_decDigits _ (Nat.mod_lt n (by norm_num)))
        · exact Or.inr h

theorem repr_data_mem (n : Nat) (c : Char) (h : c ∈ (Nat.repr n).data) : c ∈ decDigits := by
  have hd : (Nat.repr n).data = Nat.toDigitsCore 10 (n + 1) n [] := rfl
  rw [hd] at h
  rcases toDigitsCore_mem (n + 1) n [] c h with h | h
  · exact h
  · simp at h

/-- The value of a decimal digit character. -/
def digitVal (c : Char) : Nat :=
  if c = '0' then 0 else if c = '1' then 1 else if c = '2' then 2 else if c = '3' then 3
  else if c = '4' then 4 else if c = '5' then 5 else if c = '6' then 6 else if c = '7' then 7
  else if c = '8' then 8 else 9

/-- Reading a digit string back into a number. -/
def ofDigits (cs : List Char) : Nat := cs.foldl (fun a c => a * 10 + digitVal c) 0

theorem digitVal_digitChar : ∀ k, k < 10 → digitVal (Nat.digitChar k) = k := by decide

theorem ofDigits_append_singleton (cs : List Char) (c : Char) :
    ofDigits (cs ++ [c]) = ofDigits cs * 10 + digitVal c := by
  simp [ofDigits, List.foldl_append]

theorem toDigitsCore_append : ∀ (fuel n : Nat) (ds : List Char),
    Nat.toDigitsCore 10 fuel n ds = Nat.toDigitsCore 10 fuel n [] ++ ds
  | 0, _, _ => rfl
  | fuel + 1, n, ds => by
    simp only [Nat.toDigitsCore]
    by_cases h0 : n / 10 = 0
    · simp [h0]
    · rw [if_neg h0, if_neg h0,
        toDigitsCore_append fuel (n / 10) (Nat.digitChar (n % 10) :: ds),
        toDigitsCore_append fuel (n / 10) [Nat.digitChar (n % 10)]]
      simp

theorem toDigitsCore_fuel : ∀ (n fuel1 fuel2 : Nat), n < fuel1 → n < fuel2 →
    Nat.toDigitsCore 10 fuel1 n [] = Nat.toDigitsCore 10 fuel2 n [] := by
  intro n
  induction n using Nat.strong_induction_on with
  | _ n ih =>
    intro fuel1 fuel2 h1 h2
    match fuel1, fuel2 with
    | f1 + 1, f2 + 1 =>
      simp only [Nat.toDigitsCore]
      by_cases h0 : n / 10 = 0
      · simp [h0]
      · rw [if_neg h0, if_neg h0, toDigitsCore_append f1, toDigitsCore_append f2]
        have hn10 : n / 10 < n := Nat.div_lt_self (by omega) (by norm_num)
        rw [ih (n / 10) hn10 f1 f2 (by omega) (by omega)]

theorem ofDigits_toDigits : ∀ n : Nat, ofDigits (Nat.toDigits 10 n) = n := by
  intro n
  induction n using Nat.strong_induction_on with
  | _ n ih =>
    rw [Nat.toDigits]
    simp only [Nat.toDigitsCore]
    by_cases h0 : n / 10 = 0
    · rw [if_pos h0]
      have hn : n < 10 := by omega
      have hmod : n % 10 = n := Nat.mod_eq_of_lt hn
      simp [ofDigits, hmod, digitVal_digitChar n hn]
    · rw [if_neg h0,
        toDigitsCore_append n (n / 10) [Nat.digitChar (n % 10)],
        toDigitsCore_fuel (n / 10) n (n / 10 + 1) (by omega) (by omega),
        ofDigits_append_singleton]
      have hn10 : n / 10 < n := Nat.div_lt_self (by omega) (by norm_num)
      have hrec := ih (n / 10) hn10
      rw [Nat.toDigits] at hrec
      rw [hrec, digitVal_digitChar _ (Nat.mod_lt n (by norm_num))]
      omega

theorem natRepr_inj {m n : Nat} (h : Nat.repr m = Nat.repr n) : m = n := by
  have hd : Nat.toDigits 10 m = Nat.toDigits 10 n := congrArg String.data h
  have hv := congrArg ofDigits hd
  rwa [ofDigits_toDigits, ofDigits_toDigits] at hv

theorem toDigitsCore_eq_nil : ∀ (fuel n : Nat) (ds : List Char),
    Nat.toDigitsCore 10 fuel n ds = [] → ds = []
  | 0, _, _, h => h
  | fuel + 1, n, ds, h => by
    simp only [Nat.toDigitsCore] at h
    by_cases h0 : n / 10 = 0
    · rw [if_pos h0] at h
      exact absurd h (List.cons_ne_nil _ _)
    · rw [if_neg h0] at h
      exact absurd (toDigitsCore_eq_nil fuel (n / 10) _ h) (List.cons_ne_nil _ _)

theorem repr_data_ne_nil (n : Nat) : (Nat.repr n).data ≠ [] := by
  intro h
  have hd : (Nat.repr n).data = Nat.toDigitsCore 10 (n + 1) n [] := rfl
  rw [hd] at h
  simp only [Nat.toDigitsCore] at h
  by_cases h0 : n / 10 = 0
  · rw [if_pos h0] at h
    exact List.cons_ne_nil _ _ h
  · rw [if_neg h0] at h
    exact List.cons_ne_nil _ _ (toDigitsCore_eq_nil _ _ _ h)

theorem decDigits_charset : ∀ c ∈ decDigits, c ≠ ',' ∧ c ≠ '-' ∧ c.toNat < 256 := by decide

/-! ## Splitting at a separator, token and join injectivity -/

theorem append_sep_inj (sep : Char) : ∀ (xs1 xs2 t1 t2 : List Char),
    sep ∉ xs1 → sep ∉ xs2 → xs1 ++ sep :: t1 = xs2 ++ sep :: t2 → xs1 = xs2 ∧ t1 = t2
  | [], [], _, _, _, _, h => ⟨rfl, by simpa using h⟩
  | [], x :: xs, _, _, _, h2, h => by
    rw [List.nil_append, List.cons_append] at h
    injection h with hx _
    subst hx
    exact absurd (List.mem_cons_self sep xs) h2
  | x :: xs, [], _, _, h1, _, h => by
    rw [List.nil_append, List.cons_append] at h
    injection h with hx _
    rw [hx] at h1
    exact absurd (List.mem_cons_self sep xs) h1
  | x1 :: xs1, x2 :: xs2, t1, t2, h1, h2, h => by
    rw [List.cons_append, List.cons_append] at h
    injection h with hx ht
    subst hx
    have hrec := append_sep_inj sep xs1 xs2 t1 t2
      (fun hm => h1 (List.mem_cons_of_mem _ hm)) (fun hm => h2 (List.mem_cons_of_mem _ hm)) ht
    exact ⟨by rw [hrec.1], hrec.2⟩

theorem comma_not_mem_repr (n : Nat) : ',' ∉ (Nat.repr n).data :=
  fun h => (decDigits_charset ',' (repr_data_mem n ',' h)).1 rfl

theorem dash_not_mem_repr (n : Nat) : '-' ∉ (Nat.repr n).data :=
  fun h => (decDigits_charset '-' (repr_data_mem n '-' h)).2.1 rfl

theorem petToken_data (p : Pet) :
    (petToken p).data = (Nat.repr (jsOrNat p.speciesID 0)).data ++ '-' ::
      ((Nat.repr (jsOrNat p.level 1)).data ++ '-' :: (Nat.repr (petQuality p)).data) := by
  simp [petToken, String.data_append]

theorem petToken_inj {p q : Pet} (h : petToken p = petToken q) : effTriple p = effTriple q := by
  have hd := congrArg String.data h
  rw [petToken_data, petToken_data] at hd
  have h1 := append_sep_inj '-' _ _ _ _ (dash_not_mem_repr _) (dash_not_mem_repr _) hd
  have h2 := append_sep_inj '-' _ _ _ _ (dash_not_mem_repr _) (dash_not_mem_repr _) h1.2
  refine Prod.ext ?_ (Prod.ext ?_ ?_) <;> simp only [effTriple]
  · exact natRepr_inj (String.toList_inj.mp h1.1)
  · exact natRepr_inj (String.toList_inj.mp h2.1)
  · exact natRepr_inj (String.toList_inj.mp h2.2)

theorem petToken_charset (p : Pet) : ∀ c ∈ (petToken p).data, c ∈ decDigits ∨ c = '-' := by
  rw [petToken_data]
  intro c hc
  simp only [List.mem_append, List.mem_cons] at hc
  rcases hc with h | h | h
  · exact Or.inl (repr_data_mem _ c h)
  · exact Or.inr h
  · rcases h with h | h | h
    · exact Or.inl (repr_data_mem _ c h)
    · exact Or.inr h
    · exact Or.inl (repr_data_mem _ c h)

theorem petToken_ne_nil (p : Pet) : (petToken p).data ≠ [] := by
  rw [petToken_data]
  intro h
  exact repr_data_ne_nil _ (List.append_eq_nil.mp h).1

theorem petToken_comma_free (p : Pet) : ',' ∉ (petToken p).data := by
  intro h
  rcases petToken_charset p ',' h with h | h
  · exact (decDigits_charset ',' h).1 rfl
  · exact absurd h (by decide)

theorem joinComma_data_cons (s s2 : String) (rest : List String) :
    (joinComma (s :: s2 :: rest)).data = s.data ++ ',' :: (joinComma (s2 :: rest)).data := by
  simp [joinComma, String.data_append]

theorem joinComma_inj : ∀ l1 l2 : List String,
    (∀ s ∈ l1, s.data ≠ [] ∧ ',' ∉ s.data) → (∀ s ∈ l2, s.data ≠ [] ∧ ',' ∉ s.data) →
    joinComma l1 = joinComma l2 → l1 = l2
  | [], [], _, _, _ => rfl
  | [], [b], _, h2, h => by
    have hd := congrArg String.data h
    simp only [joinComma] at hd
    exact absurd hd.symm (h2 b (List.mem_singleton.mpr rfl)).1
  | [], b :: b2 :: bs, _, _, h => by
    have hd := congrArg String.data h
    rw [joinComma_data_cons] at hd
    simp only [joinComma] at hd
    exact absurd hd.symm (List.append_ne_nil_of_right_ne_nil _ (List.cons_ne_nil _ _))
  | [a], [], h1, _, h => by
    have hd := congrArg String.data h
    simp only [joinComma] at hd
    exact absurd hd (h1 a (List.mem_singleton.mpr rfl)).1
  | [a], [b], _, _, h => by
    simp only [joinComma] at h
    rw [h]
  | [a], b :: b2 :: bs, h1, _, h => by
    have hd := congrArg String.data h
    rw [joinComma_data_cons] at hd
    simp only [joinComma] at hd
    have hm : ',' ∈ a.data := by
      rw [hd]
      simp
    exact absurd hm (h1 a (List.mem_singleton.mpr rfl)).2
  | a :: a2 :: as, [], _, h2, h => by
    have hd := congrArg String.data h
    rw [joinComma_data_cons] at hd
    simp only [joinComma] at hd
    exact absurd hd (List.append_ne_nil_of_right_ne_nil _ (List.cons_ne_nil _ _))
  | a :: a2 :: as, [b], _, h2, h => by
    have hd := congrArg String.data h
    rw [joinComma_data_cons] at hd
    simp only [joinComma] at hd
    have hm : ',' ∈ b.data := by
      rw [← hd]
      simp
    exact absurd hm (h2 b (List.mem_singleton.mpr rfl)).2
  | a :: a2 :: as, b :: b2 :: bs, h1, h2, h => by
    have hd := congrArg String.data h
    rw [joinComma_data_cons, joinComma_data_cons] at hd
    have hsp := append_sep_inj ',' _ _ _ _ (h1 a (List.mem_cons_self _ _)).2
      (h2 b (List.mem_cons_self _ _)).2 hd
    have ha : a = b := String.toList_inj.mp hsp.1
    have ht : joinComma (a2 :: as) = joinComma (b2 :: bs) := String.toList_inj.mp hsp.2
    have hrec := joinComma_inj (a2 :: as) (b2 :: bs)
      (fun s hs => h1 s (List.mem_cons_of_mem _ hs))
      (fun s hs => h2 s (List.mem_cons_of_mem _ hs)) ht
    rw [ha, hrec]

theorem joinComma_mem : ∀ (l : List String) (c : Char),
    c ∈ (joinComma l).data → c = ',' ∨ ∃ s ∈ l, c ∈ s.data
  | [], c, h => by simp [joinComma] at h
  | [s], c, h => Or.inr ⟨s, List.mem_singleton.mpr rfl, h⟩
  | s :: s2 :: rest, c, h => by
    rw [joinComma_data_cons] at h
    rcases List.mem_append.mp h with h | h
    · exact Or.inr ⟨s, List.mem_cons_self _ _, h⟩
    · rcases List.mem_cons.mp h with h | h
      · exact Or.inl h
      · rcases joinComma_mem (s2 :: rest) c h with h | ⟨t, ht, hc⟩
        · exact Or.inl h
        · exact Or.inr ⟨t, List.mem_cons_of_mem _ ht, hc⟩

/-! ## Base64 facts: length and injectivity on byte lists -/

theorem b64Char_lt_ne_pad : ∀ n < 64, b64Char n ≠ '=' := by decide

theorem b64Char_ne_pad (n : Nat) : b64Char n ≠ '=' := by
  by_cases h : n < 64
  · exact b64Char_lt_ne_pad n h
  · have hlen : base64Chars.length = 64 := rfl
    have hA : b64Char n = 'A' := List.getD_eq_default _ _ (by omega)
    rw [hA]
    decide

theorem b64Char_inj : ∀ x < 64, ∀ y < 64, b64Char x = b64Char y → x = y := by decide

theorem base64Encode_length : ∀ bs : List Nat, (base64Encode bs).length = 4 * ((bs.length + 2) / 3)
  | [] => rfl
  | [_] => by simp [base64Encode]
  | [_, _] => by simp [base64Encode]
  | _ :: _ :: _ :: rest => by
    simp only [base64Encode, List.length_cons, base64Encode_length rest]
    omega

theorem base64Encode_inj : ∀ bs1 bs2 : List Nat, (∀ b ∈ bs1, b < 256) → (∀ b ∈ bs2, b < 256) →
    base64Encode bs1 = base64Encode bs2 → bs1 = bs2
  | [], [], _, _, _ => rfl
  | [], [_], _, _, h => by simp [base64Encode] at h
  | [], [_, _], _, _, h => by simp [base64Encode] at h
  | [], _ :: _ :: _ :: _, _, _, h => by simp [base64Encode] at h
  | [_], [], _, _, h => by simp [base64Encode] at h
  | [_, _], [], _, _, h => by simp [base64Encode] at h
  | _ :: _ :: _ :: _, [], _, _, h => by simp [base64Encode] at h
  | [b1], [c1], h1, h2, h => by
    simp only [base64Encode, List.cons.injEq, and_true] at h
    have hb := h1 b1 (List.mem_singleton.mpr rfl)
    have hc := h2 c1 (List.mem_singleton.mpr rfl)
    have g1 := b64Char_inj (b1 / 4) (by omega) (c1 / 4) (by omega) h.1
    have g2 := b64Char_inj (b1 % 4 * 16) (by omega) (c1 % 4 * 16) (by omega) h.2
    have e1 : b1 = c1 := by omega
    rw [e1]
  | [b1], [c1, c2], h1, h2, h => by
    simp only [base64Encode, List.cons.injEq, and_true] at h
    exact absurd h.2.2.symm (b64Char_ne_pad _)
  | [b1], c1 :: c2 :: c3 :: r, h1, h2, h => by
    simp only [base64Encode, List.cons.injEq] at h
    exact absurd h.2.2.1.symm (b64Char_ne_pad _)
  | [b1, b2], [c1], h1, h2, h => by
    simp only [base64Encode, List.cons.injEq, and_true] at h
    exact absurd h.2.2 (b64Char_ne_pad _)
  | [b1, b2], [c1, c2], h1, h2, h => by
    simp only [base64Encode, List.cons.injEq, and_true] at h
    have hb1 := h1 b1 (List.mem_cons_self _ _)
    have hb2 := h1 b2 (List.mem_cons_of_mem _ (List.mem_singleton.mpr rfl))
    have hc1 := h2 c1 (List.mem_cons_self _ _)
    have hc2 := h2 c2 (List.mem_cons_of_mem _ (List.mem_singleton.mpr rfl))
    have g1 := b64Char_inj (b1 / 4) (by omega) (c1 / 4) (by omega) h.1
    have g2 := b64Char_inj (b1 % 4 * 16 + b2 / 16) (by omega) (c1 % 4 * 16 + c2 / 16)
      (by omega) h.2.1
    have g3 := b64Char_inj (b2 % 16 * 4) (by omega) (c2 % 16 * 4) (by omega) h.2.2
    have e1 : b1 = c1 := by omega
    have e2 : b2 = c2 := by omega
    rw [e1, e2]
  | [b1, b2], c1 :: c2 :: c3 :: r, h1, h2, h => by
    simp only [base64Encode, List.cons.injEq] at h
    exact absurd h.2.2.2.1.symm (b64Char_ne_pad _)
  | b1 :: b2 :: b3 :: r1, [c1], h1, h2, h => by
    simp only [base64Encode, List.cons.injEq] at h
    exact absurd h.2.2.1 (b64Char_ne_pad _)
  | b1 :: b2 :: b3 :: r1, [c1, c2], h1, h2, h => by
    simp only [base64Encode, List.cons.injEq] at h
    exact absurd h.2.2.2.1 (b64Char_ne_pad _)
  | b1 :: b2 :: b3 :: r1, c1 :: c2 :: c3 :: r2, h1, h2, h => by
    simp only [base64Encode, List.cons.injEq] at h
    have hb1 := h1 b1 (List.mem_cons_self _ _)
    have hb2 := h1 b2 (List.mem_cons_of_mem _ (List.mem_cons_self _ _))
    have hb3 := h1 b3 (List.mem_cons_of_mem _ (List.mem_cons_of_mem _ (List.mem_cons_self _ _)))
    have hc1 := h2 c1 (List.mem_cons_self _ _)
    have hc2 := h2 c2 (List.mem_cons_of_mem _ (List.mem_cons_self _ _))
    have hc3 := h2 c3 (List.mem_cons_of_mem _ (List.mem_cons_of_mem _ (List.mem_cons_self _ _)))
    have g1 := b64Char_inj (b1 / 4) (by omega) (c1 / 4) (by omega) h.1
    have g2 := b64Char_inj (b1 % 4 * 16 + b2 / 16) (by omega) (c1 % 4 * 16 + c2 / 16)
      (by omega) h.2.1
    have g3 := b64Char_inj (b2 % 16 * 4 + b3 / 64) (by omega) (c2 % 16 * 4 + c3 / 64)
      (by omega) h.2.2.1
    have g4 := b64Char_inj (b3 % 64) (by omega) (c3 % 64) (by omega) h.2.2.2.1
    have hrec := base64Encode_inj r1 r2
      (fun b hb => h1 b (List.mem_cons_of_mem _ (List.mem_cons_of_mem _ (List.mem_cons_of_mem _ hb))))
      (fun b hb => h2 b (List.mem_cons_of_mem _ (List.mem_cons_of_mem _ (List.mem_cons_of_mem _ hb))))
      h.2.2.2.2
    have e1 : b1 = c1 := by omega
    have e2 : b2 = c2 := by omega
    have e3 : b3 = c3 := by omega
    rw [e1, e2, e3, hrec]

/-! ## Assembling the fingerprint injectivity and invariance arguments -/

theorem char_toNat_inj : Function.Injective Char.toNat :=
  fun _ _ h => Char.ext (UInt32.ext h)

theorem btoa_data (s : String) : (btoa s).data = base64Encode (s.data.map Char.toNat) := rfl

/-- Distinct ASCII strings of length at most 48 have distinct 64-char
truncated base64 encodings: the encoding of each fits inside the
truncation window, and base64 is injective on byte lists. -/
theorem strTake_btoa_inj (s1 s2 : String)
    (hc1 : ∀ c ∈ s1.data, c.toNat < 256) (hc2 : ∀ c ∈ s2.data, c.toNat < 256)
    (hl1 : s1.length ≤ 48) (hl2 : s2.length ≤ 48) (hne : s1 ≠ s2) :
    strTake (btoa s1) 64 ≠ strTake (btoa s2) 64 := by
  intro h
  apply hne
  have hlen1 : (btoa s1).data.length ≤ 64 := by
    rw [btoa_data, base64Encode_length, List.length_map]
    have : s1.data.length ≤ 48 := hl1
    omega
  have hlen2 : (btoa s2).data.length ≤ 64 := by
    rw [btoa_data, base64Encode_length, List.length_map]
    have : s2.data.length ≤ 48 := hl2
    omega
  have hd := congrArg String.data h
  simp only [strTake] at hd
  rw [List.take_of_length_le hlen1, List.take_of_length_le hlen2, btoa_data, btoa_data] at hd
  have hbytes := base64Encode_inj _ _
    (fun b hb => by
      rcases List.mem_map.mp hb with ⟨c, hcm, rfl⟩
      exact hc1 c hcm)
    (fun b hb => by
      rcases List.mem_map.mp hb with ⟨c, hcm, rfl⟩
      exact hc2 c hcm) hd
  exact String.toList_inj.mp (List.map_injective_iff.mpr char_toNat_inj hbytes)

theorem set_not_perm {α : Type} [DecidableEq α] (l : List α) (i : Nat) (a : α)
    (hi : i < l.length) (hne : a ≠ l[i]) : ¬ (l.set i a).Perm l := by
  intro hp
  have hc := hp.count_eq l[i]
  rw [List.count_set _ _ _ _ hi] at hc
  have hm : l[i] ∈ l := List.getElem_mem hi
  have hpos : 0 < List.count l[i] l := List.count_pos_iff.mpr hm
  simp [hne] at hc
  omega

theorem sortTokens_ne {l1 l2 : List String} (h : ¬ l1.Perm l2) : sortTokens l1 ≠ sortTokens l2 := by
  intro he
  apply h
  have h1 : (sortTokens l1).Perm l1 := List.perm_insertionSort strLe l1
  have h2 : (sortTokens l2).Perm l2 := List.perm_insertionSort strLe l2
  rw [he] at h1
  exact h1.symm.trans h2

theorem tokens_cond (pets : List Pet) :
    ∀ s ∈ sortTokens (pets.map petToken), s.data ≠ [] ∧ ',' ∉ s.data := by
  intro s hs
  have hm : s ∈ pets.map petToken := by
    have := List.perm_insertionSort strLe (pets.map petToken)
    exact this.mem_iff.mp hs
  rcases List.mem_map.mp hm with ⟨p, _, rfl⟩
  exact ⟨petToken_ne_nil p, petToken_comma_free p⟩

theorem joined_charset (pets : List Pet) :
    ∀ c ∈ (joinComma (sortTokens (pets.map petToken))).data, c.toNat < 256 := by
  intro c hc
  rcases joinComma_mem _ c hc with h | ⟨s, hs, hcs⟩
  · subst h
    decide
  · have hm : s ∈ pets.map petToken := by
      have := List.perm_insertionSort strLe (pets.map petToken)
      exact this.mem_iff.mp hs
    rcases List.mem_map.mp hm with ⟨p, _, rfl⟩
    rcases petToken_charset p c hcs with h | h
    · exact (decDigits_charset c h).2.2
    · subst h
      decide

/-! ## Reconciler helper lemmas -/

theorem submitPhase2_writeErr (inp : SubmitInput) (player realm : String) (score : Int)
    (pc l25 r ep : Nat) (cid : String) (acc : List StoreAction) (e : String)
    (he : inp.writeErr = some e) :
    (submitPhase2 inp player realm score pc l25 r ep cid acc).2 ≠ Outcome.submitted := by
  unfold submitPhase2
  cases hpr : inp.byPlayerRealm player realm with
  | none => simp [he]
  | some ex =>
    by_cases hge : ex.score ≥ score
    · simp [hge]
    · simp [hge, he]

theorem specToken_eq_petToken (p : Pet) : specToken p = petToken p := by
  obtain ⟨s, l, q, qid⟩ := p
  cases s <;> cases l <;> cases q <;> cases qid <;> rfl

/-! ## The claims -/

/-- C9: when `currentScoreData` or `playerData` is missing, `submitScore`
refuses to proceed: it terminates before issuing any store read or
write. -/
theorem submitScore_missing_data_refuses (inp : SubmitInput)
    (h : inp.currentScoreData = none ∨ inp.playerData = none) :
    (submitScore inp).1 = [] ∧ (submitScore inp).2 = Outcome.missingData := by
  rcases h with h | h
  · unfold submitScore
    rw [h]
    exact ⟨rfl, rfl⟩
  · unfold submitScore
    rw [h]
    cases hcs : inp.currentScoreData <;> exact ⟨rfl, rfl⟩

/-- Witness for C9 at a concrete input with both globals missing. -/
theorem submitScore_missing_data_refuses_witness :
    (submitScore noDataInput).1 = [] ∧ (submitScore noDataInput).2 = Outcome.missingData :=
  submitScore_missing_data_refuses noDataInput (Or.inl rfl)

/-- C10: `loadCollectionFromSupabase` is a total function of the store
response: it returns the fetched row on success and `none` on the error
and exception paths, so no input makes it throw. -/
theorem loadCollection_never_throws :
    (∀ r, loadCollectionFromSupabase (LoadResp.ok r) = some r) ∧
    (∀ e, loadCollectionFromSupabase (LoadResp.err e) = none) ∧
    (∀ e, loadCollectionFromSupabase (LoadResp.exn e) = none) :=
  ⟨fun _ => rfl, fun _ => rfl, fun _ => rfl⟩

/-- C5: when neither the fingerprint lookup nor the player+realm lookup
finds a row, the flow emits exactly one INSERT carrying the candidate's
player, realm, score, stats, fingerprint and timestamp. -/
theorem submitScore_fresh_insert (inp : SubmitInput) (csd : ScoreData) (pd : PlayerData)
    (hcs : inp.currentScoreData = some csd) (hpd : inp.playerData = some pd)
    (hconf : inp.confirmSubmit = true)
    (hfp : inp.byFingerprint (collectionFingerprint (pd.pets.getD [])) = none)
    (hpr : inp.byPlayerRealm pd.playerName pd.realmName = none) :
    writesOf (submitScore inp) =
      [StoreAction.insertEntry ⟨pd.playerName, pd.realmName, csd.total, csd.stats.uniqueCount,
        csd.stats.level25Count, csd.stats.rareCount, csd.stats.epicCount,
        collectionFingerprint (pd.pets.getD []), inp.now⟩] := by
  cases hw : inp.writeErr <;>
    simp [submitScore, hcs, hpd, hconf, hfp, submitPhase2, hpr, hw, writesOf, isWrite]

/-- Witness for C5 on a fresh submission. -/
theorem submitScore_fresh_insert_witness :
    writesOf (submitScore freshInput) =
      [StoreAction.insertEntry ⟨"Alice", "Realm", 1000, 10, 5, 3, 1,
        collectionFingerprint [], 7⟩] :=
  submitScore_fresh_insert freshInput ⟨1000, ⟨10, 5, 3, 1⟩⟩ ⟨"Alice", "Realm", some []⟩
    rfl rfl rfl rfl rfl

/-- C4: when the player's own row holds a strictly lower score and no
different-player fingerprint conflict blocks the flow, exactly one
UPDATE is emitted, overwriting score, stats, fingerprint and timestamp
with the candidate's values. -/
theorem submitScore_improvement_single_update (inp : SubmitInput) (csd : ScoreData)
    (pd : PlayerData) (ex : Entry)
    (hcs : inp.currentScoreData = some csd) (hpd : inp.playerData = some pd)
    (hconf : inp.confirmSubmit = true)
    (hpr : inp.byPlayerRealm pd.playerName pd.realmName = some ex)
    (hlt : ex.score < csd.total)
    (hnoblock : ∀ d, inp.byFingerprint (collectionFingerprint (pd.pets.getD [])) = some d →
      d.player ≠ pd.playerName → inp.confirmReplace = true) :
    (submitScore inp).1.filter isUpdate =
      [StoreAction.updateEntry pd.playerName pd.realmName
        ⟨pd.realmName, csd.total, csd.stats.uniqueCount, csd.stats.level25Count,
          csd.stats.rareCount, csd.stats.epicCount,
          collectionFingerprint (pd.pets.getD []), inp.now⟩] := by
  have hnge : ¬ ex.score ≥ csd.total := not_le.mpr hlt
  cases hbf : inp.byFingerprint (collectionFingerprint (pd.pets.getD [])) with
  | none =>
    cases hw : inp.writeErr <;>
      simp [submitScore, hcs, hpd, hconf, hbf, submitPhase2, hpr, hnge, hw, isUpdate]
  | some dup =>
    by_cases hdp : dup.player = pd.playerName
    · cases hw : inp.writeErr <;>
        simp [submitScore, hcs, hpd, hconf, hbf, hdp, submitPhase2, hpr, hnge, hw, isUpdate]
    · have hcr : inp.confirmReplace = true := hnoblock dup hbf hdp
      cases hw : inp.writeErr <;>
        simp [submitScore, hcs, hpd, hconf, hbf, hdp, hcr, submitPhase2, hpr, hnge, hw, isUpdate]

/-- Witness for C4 on an improving resubmission. -/
theorem submitScore_improvement_single_update_witness :
    (submitScore updInput).1.filter isUpdate =
      [StoreAction.updateEntry "Alice" "Realm"
        ⟨"Realm", 1000, 10, 5, 3, 1, collectionFingerprint [], 7⟩] :=
  submitScore_improvement_single_update updInput ⟨1000, ⟨10, 5, 3, 1⟩⟩
    ⟨"Alice", "Realm", some []⟩ ⟨2, 900, "Alice", "Realm", "old"⟩
    rfl rfl rfl rfl (by decide) (fun d hd => by simp [updInput] at hd)

/-- C3 (counterexample): a submission whose own row already holds a
higher score can still issue a store write, because a confirmed
different-player fingerprint conflict deletes the old row first. -/
theorem submitScore_not_improvement_still_deletes :
    c3Input.byPlayerRealm "Alice" "Realm" = some ⟨2, 1000, "Alice", "Realm", "old"⟩ ∧
    c3Input.currentScoreData = some ⟨900, ⟨10, 5, 3, 1⟩⟩ ∧
    (1000 : Int) ≥ 900 ∧
    writesOf (submitScore c3Input) = [StoreAction.deleteEntry 1] := by
  exact ⟨rfl, rfl, by decide, by decide⟩

/-- C3 (amended): when the player's own row holds a score at least the
candidate's and the fingerprint lookup finds nothing belonging to a
different player, the flow issues no store write and signals
not-an-improvement, leaving the existing row untouched. -/
theorem submitScore_not_improvement_noop (inp : SubmitInput) (csd : ScoreData)
    (pd : PlayerData) (ex : Entry)
    (hcs : inp.currentScoreData = some csd) (hpd : inp.playerData = some pd)
    (hconf : inp.confirmSubmit = true)
    (hfp : ∀ d, inp.byFingerprint (collectionFingerprint (pd.pets.getD [])) = some d →
      d.player = pd.playerName)
    (hpr : inp.byPlayerRealm pd.playerName pd.realmName = some ex)
    (hge : ex.score ≥ csd.total) :
    writesOf (submitScore inp) = [] ∧ (submitScore inp).2 = Outcome.notImprovement := by
  cases hbf : inp.byFingerprint (collectionFingerprint (pd.pets.getD [])) with
  | none =>
    constructor <;>
      simp [submitScore, hcs, hpd, hconf, hbf, submitPhase2, hpr, hge, writesOf, isWrite]
  | some dup =>
    have hdp : dup.player = pd.playerName := hfp dup hbf
    constructor <;>
      simp [submitScore, hcs, hpd, hconf, hbf, hdp, submitPhase2, hpr, hge, writesOf, isWrite]

/-- Witness for the amended C3 on a conflict-free non-improvement. -/
theorem submitScore_not_improvement_noop_witness :
    writesOf (submitScore c3wInput) = [] ∧ (submitScore c3wInput).2 = Outcome.notImprovement :=
  submitScore_not_improvement_noop c3wInput ⟨900, ⟨10, 5, 3, 1⟩⟩ ⟨"Alice", "Realm", some []⟩
    ⟨2, 1000, "Alice", "Realm", "old"⟩ rfl rfl rfl
    (fun d hd => by simp [c3wInput] at hd) rfl (by decide)

/-- C1 (counterexample): a declined replacement issues no write, but a
*confirmed* replacement does not always emit the delete-insert pair: at
this input the confirmed flow deletes the old entry and then stops,
because the submitter's own row already holds a higher score, so no
insert (or update) follows the delete. -/
theorem submitScore_confirmed_replace_without_insert :
    c1Input.confirmReplace = true ∧
    c1Input.byFingerprint (collectionFingerprint []) = some ⟨4, 700, "Eve", "Realm", "x"⟩ ∧
    ("Eve" : String) ≠ "Dana" ∧
    writesOf (submitScore c1Input) = [StoreAction.deleteEntry 4] := by
  exact ⟨rfl, rfl, by decide, by decide⟩

/-- C1 (amended): a different-player fingerprint match surfaces the
replace-or-reject decision.  Declining issues no write.  Confirming
deletes the old entry and then continues with the normal player+realm
reconciliation: the operations are delete-old + insert-new exactly when
the submitter has no own row; an own row with a lower score turns the
insert into an update, and an own row with a score at least the
candidate's leaves the delete unaccompanied. -/
theorem submitScore_fingerprint_conflict_cases (inp : SubmitInput) (csd : ScoreData)
    (pd : PlayerData) (dup : Entry)
    (hcs : inp.currentScoreData = some csd) (hpd : inp.playerData = some pd)
    (hconf : inp.confirmSubmit = true)
    (hfp : inp.byFingerprint (collectionFingerprint (pd.pets.getD [])) = some dup)
    (hdiff : dup.player ≠ pd.playerName) :
    (inp.confirmReplace = false →
      writesOf (submitScore inp) = [] ∧ (submitScore inp).2 = Outcome.duplicateDeclined) ∧
    (inp.confirmReplace = true → inp.byPlayerRealm pd.playerName pd.realmName = none →
      writesOf (submitScore inp) = [StoreAction.deleteEntry dup.id,
        StoreAction.insertEntry ⟨pd.playerName, pd.realmName, csd.total, csd.stats.uniqueCount,
          csd.stats.level25Count, csd.stats.rareCount, csd.stats.epicCount,
          collectionFingerprint (pd.pets.getD []), inp.now⟩]) ∧
    (inp.confirmReplace = true → ∀ ex, inp.byPlayerRealm pd.playerName pd.realmName = some ex →
      (ex.score ≥ csd.total → writesOf (submitScore inp) = [StoreAction.deleteEntry dup.id]) ∧
      (ex.score < csd.total → writesOf (submitScore inp) = [StoreAction.deleteEntry dup.id,
        StoreAction.updateEntry pd.playerName pd.realmName
          ⟨pd.realmName, csd.total, csd.stats.uniqueCount, csd.stats.level25Count,
            csd.stats.rareCount, csd.stats.epicCount,
            collectionFingerprint (pd.pets.getD []), inp.now⟩])) := by
  refine ⟨fun hcr => ?_, fun hcr hpr => ?_, fun hcr ex hpr => ⟨fun hge => ?_, fun hlt => ?_⟩⟩
  · constructor <;> simp [submitScore, hcs, hpd, hconf, hfp, hdiff, hcr, writesOf, isWrite]
  · cases hw : inp.writeErr <;>
      simp [submitScore, hcs, hpd, hconf, hfp, hdiff, hcr, submitPhase2, hpr, hw,
        writesOf, isWrite]
  · simp [submitScore, hcs, hpd, hconf, hfp, hdiff, hcr, submitPhase2, hpr, hge,
      writesOf, isWrite]
  · have hnge : ¬ ex.score ≥ csd.total := not_le.mpr hlt
    cases hw : inp.writeErr <;>
      simp [submitScore, hcs, hpd, hconf, hfp, hdiff, hcr, submitPhase2, hpr, hnge, hw,
        writesOf, isWrite]

/-- Witness for the amended C1: a confirmed replacement with no own row
emits the delete-insert pair. -/
theorem submitScore_fingerprint_conflict_cases_witness :
    writesOf (submitScore c1wInput) = [StoreAction.deleteEntry 4,
      StoreAction.insertEntry ⟨"Dana", "Realm", 800, 10, 5, 3, 1,
        collectionFingerprint [], 7⟩] :=
  (submitScore_fingerprint_conflict_cases c1wInput ⟨800, ⟨10, 5, 3, 1⟩⟩
    ⟨"Dana", "Realm", some []⟩ ⟨4, 700, "Eve", "Realm", "x"⟩
    rfl rfl rfl rfl (by decide)).2.1 rfl rfl

/-- C2 (counterexample): the 64-character truncation of the base64
encoding makes the fingerprint blind to differences past the 48th byte
of the sorted token join: `petsA` and `petsB` differ in the ninth pet's
quality, yet their fingerprints coincide. -/
theorem collectionFingerprint_collision_from_truncation :
    petsA = petsBase ++ [mkPet 9 1 0] ∧ petsB = petsBase ++ [mkPet 9 1 1] ∧
    effTriple (mkPet 9 1 0) ≠ effTriple (mkPet 9 1 1) ∧
    collectionFingerprint petsA = collectionFingerprint petsB := by
  exact ⟨rfl, rfl, by decide, by decide⟩

/-- C2 (amended): replacing one pet by a pet with a different effective
(speciesID, level, quality) triple changes the fingerprint, provided the
sorted comma-joined token strings of both collections fit in the 48
bytes that survive the 64-character base64 truncation. -/
theorem collectionFingerprint_changes_with_pet (pets : List Pet) (i : Nat) (p2 : Pet)
    (hi : i < pets.length)
    (hdiff : effTriple p2 ≠ effTriple pets[i])
    (hl1 : (joinComma (sortTokens (pets.map petToken))).length ≤ 48)
    (hl2 : (joinComma (sortTokens ((pets.set i p2).map petToken))).length ≤ 48) :
    collectionFingerprint (pets.set i p2) ≠ collectionFingerprint pets := by
  have htok : petToken p2 ≠ petToken pets[i] := fun h => hdiff (petToken_inj h)
  have hmap : (pets.set i p2).map petToken = (pets.map petToken).set i (petToken p2) :=
    List.map_set ..
  have hilen : i < (pets.map petToken).length := by simpa using hi
  have hnp : ¬ (((pets.map petToken).set i (petToken p2)).Perm (pets.map petToken)) := by
    apply set_not_perm _ i _ hilen
    rw [List.getElem_map]
    exact htok
  have hsne : sortTokens ((pets.set i p2).map petToken) ≠ sortTokens (pets.map petToken) := by
    rw [hmap]
    exact sortTokens_ne hnp
  have hjne : joinComma (sortTokens ((pets.set i p2).map petToken)) ≠
      joinComma (sortTokens (pets.map petToken)) := by
    intro h
    exact hsne (joinComma_inj _ _ (tokens_cond _) (tokens_cond _) h)
  exact strTake_btoa_inj _ _ (joined_charset _) (joined_charset _) hl2 hl1 hjne

/-- Witness for the amended C2 on a one-pet collection. -/
theorem collectionFingerprint_changes_with_pet_witness :
    collectionFingerprint ([mkPet 1 1 0].set 0 (mkPet 1 2 0)) ≠
      collectionFingerprint [mkPet 1 1 0] :=
  collectionFingerprint_changes_with_pet [mkPet 1 1 0] 0 (mkPet 1 2 0)
    (by decide) (by decide) (by decide) (by decide)

/-- C6: the fingerprint is invariant under any permutation of the
collection. -/
theorem collectionFingerprint_perm_invariant (pets1 pets2 : List Pet)
    (h : pets1.Perm pets2) :
    collectionFingerprint pets1 = collectionFingerprint pets2 := by
  have hs : sortTokens (pets1.map petToken) = sortTokens (pets2.map petToken) :=
    List.eq_of_perm_of_sorted
      ((List.perm_insertionSort strLe _).trans
        ((h.map petToken).trans (List.perm_insertionSort strLe _).symm))
      (List.sorted_insertionSort strLe _) (List.sorted_insertionSort strLe _)
  simp [collectionFingerprint, hs]

/-- Witness for C6 on a concrete shuffle. -/
theorem collectionFingerprint_perm_invariant_witness :
    collectionFingerprint [mkPet 1 25 3, mkPet 2 10 1] =
      collectionFingerprint [mkPet 2 10 1, mkPet 1 25 3] :=
  collectionFingerprint_perm_invariant _ _ (by decide)

/-- C7 (counterexample): the code's token defaulting is falsy, not
missing-only: a pet with an explicit zero level gets token level 1 from
the code, while the claim's token keeps the zero, so the described
algorithm computes a different fingerprint on `[claimPet]`. -/
theorem collectionFingerprint_deviates_from_claim_token :
    petToken claimPet ≠ claimToken claimPet ∧
    collectionFingerprint [claimPet] ≠ claimFingerprint [claimPet] := by
  exact ⟨by decide, by decide⟩

/-- C7 (amended): the fingerprint equals the amended description — map
each pet to `speciesID-level-quality` with falsy defaulting (zero or
missing speciesID to 0, zero or missing level to 1, quality from
`quality` else `qualityID` else 0), sort the token multiset
lexicographically, comma-join, base64-encode and truncate — and is at
most 64 characters long. -/
theorem collectionFingerprint_matches_spec_description (pets : List Pet) :
    collectionFingerprint pets = specFingerprint pets ∧
    (collectionFingerprint pets).length ≤ 64 := by
  constructor
  · have hmap : pets.map specToken = pets.map petToken :=
      List.map_congr_left (fun p _ => specToken_eq_petToken p)
    have hperm : (Multiset.sort strLe (↑(pets.map petToken) : Multiset String)).Perm
        (pets.map petToken) :=
      Multiset.coe_eq_coe.mp (Multiset.sort_eq strLe (↑(pets.map petToken) : Multiset String))
    have hsort : Multiset.sort strLe (↑(pets.map specToken) : Multiset String) =
        sortTokens (pets.map petToken) := by
      rw [hmap]
      exact List.eq_of_perm_of_sorted
        (hperm.trans (List.perm_insertionSort strLe _).symm)
        (Multiset.sort_sorted _ _) (List.sorted_insertionSort _ _)
    simp [specFingerprint, collectionFingerprint, hsort]
  · have hlen : (collectionFingerprint pets).length =
        ((btoa (joinComma (sortTokens (pets.map petToken)))).data.take 64).length := rfl
    rw [hlen, List.length_take]
    omega

/-- C8 (counterexample): a failed leaderboard fetch returns the empty
list, exactly what a successful fetch of an empty leaderboard returns,
so the error is swallowed into a result indistinguishable from
success. -/
theorem fetchLeaderboard_error_indistinguishable :
    fetchLeaderboard (FetchResp.err "network down") = fetchLeaderboard (FetchResp.ok (some [])) ∧
    fetchLeaderboard (FetchResp.err "network down") = [] := by
  exact ⟨rfl, rfl⟩

/-- C8 (amended): write failures are surfaced — `saveCollectionToSupabase`
returns `false` exactly on a failed or throwing write, and a
`submitScore` run whose write fails never reports the submitted
outcome — but a failed leaderboard fetch is reported as the empty list,
indistinguishable from a successful empty fetch. -/
theorem store_errors_surfaced :
    (∀ ex e, (saveCollectionToSupabase ex (WriteResp.err e)).2 = false) ∧
    (∀ ex e, (saveCollectionToSupabase ex (WriteResp.exn e)).2 = false) ∧
    (∀ ex, (saveCollectionToSupabase ex WriteResp.ok).2 = true) ∧
    (∀ e, fetchLeaderboard (FetchResp.err e) = []) ∧
    (∀ inp e, inp.writeErr = some e → (submitScore inp).2 ≠ Outcome.submitted) := by
  refine ⟨fun _ _ => rfl, fun _ _ => rfl, fun _ => rfl, fun _ => rfl, fun inp e he => ?_⟩
  unfold submitScore
  cases hcs : inp.currentScoreData with
  | none => simp
  | some csd =>
    cases hpd : inp.playerData with
    | none => simp
    | some pd =>
      dsimp only
      by_cases hcf : inp.confirmSubmit = false
      · simp [hcf]
      · rw [if_neg hcf]
        cases hbf : inp.byFingerprint (collectionFingerprint (pd.pets.getD [])) with
        | none => exact submitPhase2_writeErr inp _ _ _ _ _ _ _ _ _ e he
        | some dup =>
          dsimp only
          by_cases hdp : dup.player ≠ pd.playerName
          · rw [if_pos hdp]
            by_cases hcr : inp.confirmReplace = false
            · simp [hcr]
            · rw [if_neg hcr]
              exact submitPhase2_writeErr inp _ _ _ _ _ _ _ _ _ e he
          · rw [if_neg hdp]
            exact submitPhase2_writeErr inp _ _ _ _ _ _ _ _ _ e he

/-- Witness for the amended C8: a failing write yields a non-submitted
outcome at a concrete input. -/
theorem store_errors_surfaced_witness :
    (submitScore c8Input).2 ≠ Outcome.submitted :=
  store_errors_surfaced.2.2.2.2 c8Input "boom" rfl

end TauriPets
